import Mathlib

/-!
Shallow embedding of the `model.py` repository (discrete distribution fitting
and model selection) and verification of its specification claims.

Python floats are modelled as exact reals; external library calls (scipy's
Poisson pmf, mpmath's Hurwitz zeta and polylogarithm, the random sources) are
modelled as oracle parameters, since they are external collaborators of the
repository.  Each definition mirrors one function of the source tree.
-/

open scoped Classical

noncomputable section

namespace ModelPy

/-- EPSILON from `core/core.py`: tolerance for degenerate substitution. -/
def EPSILON : ℝ := 0.001

/-- DEFAULT_PDF_MAX from `core/core.py`: default domain size for pmfs. -/
def DEFAULT_PDF_MAX : ℕ := 10000

/-- DEFAULT_SAMPLE_MAX from `core/core.py`. -/
def DEFAULT_SAMPLE_MAX : ℕ := DEFAULT_PDF_MAX

/-- Python `int()` applied to a float: truncation toward zero. -/
def pyInt (x : ℝ) : ℤ := if 0 ≤ x then ⌊x⌋ else ⌈x⌉

/-- External collaborators: scipy's Poisson pmf, mpmath's Hurwitz zeta and
polylogarithm, and the three random sources used by the sampling methods. -/
structure Oracles where
  poissonPmf : ℝ → ℕ → ℝ
  zeta : ℝ → ℝ → ℝ
  polylog : ℝ → ℝ → ℝ
  discreteRvs : List ℝ → List ℝ → ℕ → List ℝ
  poissonRvs : ℝ → ℕ → List ℝ
  uniformRvs : ℝ → ℝ → ℕ → List ℝ

/-- A fixed trivial oracle assignment, used to instantiate theorems at
concrete inputs. -/
def trivOracles : Oracles where
  poissonPmf := fun _ _ => 0
  zeta := fun _ _ => 2
  polylog := fun _ _ => 2
  discreteRvs := fun _ _ _ => []
  poissonRvs := fun _ _ => []
  uniformRvs := fun _ _ _ => []

/-- `np.max` over a list (junk value 0 on the empty list, where numpy raises). -/
def npMax : List ℝ → ℝ
  | [] => 0
  | x :: xs => xs.foldl max x

/-- Python `min` over a list of values (junk value 0 on the empty list). -/
def npMin : List ℝ → ℝ
  | [] => 0
  | x :: xs => xs.foldl min x

namespace Delta

/-- `Delta.pmf` from `core/core.py`: zeros up to the location, a single 1,
then zeros up to `max(int(x0), domain)`. -/
def pmf (x0 : ℝ) (domain : ℕ) : List ℝ :=
  let k := (pyInt x0).toNat
  let real_domain := max k domain
  (List.replicate k 0 ++ [1]) ++ List.replicate (real_domain - k) 0

/-- `Delta.samples` from `core/core.py`: `np.ones(size) * int(params[0])`. -/
def samples (x0 : ℝ) (size : ℕ) : List ℝ :=
  List.replicate size ((pyInt x0 : ℤ) : ℝ)

/-- `Delta.log_likelihood` from `core/core.py`: narrow-Gaussian approximation
`-len(data)*ln(EPSILON*sqrt(2*pi)) - 0.5*sum(0.5*(x-x0)^2)/EPSILON^2`. -/
def log_likelihood (x0 : ℝ) (data : List ℝ) : ℝ :=
  -(data.length : ℝ) * Real.log (EPSILON * Real.sqrt (2 * Real.pi))
    - 0.5 * ((data.map (fun x => 0.5 * (x - x0) ^ 2)).sum) / EPSILON ^ 2

end Delta

namespace Uniform

/-- `Uniform.pmf` from `core/core.py`: `np.ones(domain+1)/(domain+1)`. -/
def pmf (domain : ℕ) : List ℝ :=
  List.replicate (domain + 1) (1 / ((domain : ℝ) + 1))

/-- `Uniform.samples` from `core/core.py`: `np.random.uniform(0, domain, size)`. -/
def samples (O : Oracles) (size domain : ℕ) : List ℝ :=
  O.uniformRvs 0 domain size

/-- `Uniform.log_likelihood` from `core/core.py`: `-len(data)*ln(max(data))`. -/
def log_likelihood (data : List ℝ) : ℝ :=
  -(data.length : ℝ) * Real.log (npMax data)

end Uniform

/-- `generate_discrete_samples` from `core/core.py`: weighted discrete sampling
with the probabilities normalized by their sum. -/
def generate_discrete_samples (O : Oracles) (values probabilities : List ℝ)
    (size : ℕ) : List ℝ :=
  O.discreteRvs values (probabilities.map (· / probabilities.sum)) size

/-- `ks_statistics` from `calculation/measures.py`: the shorter CDF is padded
with trailing ones, then the maximum absolute pointwise difference is taken. -/
def ks_statistics (data_cdf model_cdf : List ℝ) : ℝ :=
  if model_cdf.length < data_cdf.length then
    npMax (List.zipWith (fun x y => |x - y|) data_cdf
      (model_cdf ++ List.replicate (data_cdf.length - model_cdf.length) 1))
  else if data_cdf.length < model_cdf.length then
    npMax (List.zipWith (fun x y => |x - y|)
      (data_cdf ++ List.replicate (model_cdf.length - data_cdf.length) 1) model_cdf)
  else
    npMax (List.zipWith (fun x y => |x - y|) data_cdf model_cdf)

/-- Restatement of the spec's padding rule for `ks_statistics`: both sequences
are padded with trailing ones to the common maximal length, then the maximum
absolute pointwise difference is taken.  Written from the spec's words, for
comparison with the source definition. -/
def ksPadSpec (a b : List ℝ) : ℝ :=
  let n := max a.length b.length
  npMax (List.zipWith (fun x y => |x - y|)
    (a ++ List.replicate (n - a.length) 1) (b ++ List.replicate (n - b.length) 1))

namespace Poisson

/-- `Poisson.pmf` from `distributions/poisson.py`: delta fallback below
EPSILON, otherwise scipy's Poisson pmf evaluated on `0..domain`. -/
def pmf (O : Oracles) (lam : ℝ) (domain : ℕ) : List ℝ :=
  if lam < EPSILON then Delta.pmf 0 domain
  else (List.range (domain + 1)).map (O.poissonPmf lam)

/-- `Poisson.samples` from `distributions/poisson.py`. -/
def samples (O : Oracles) (lam : ℝ) (size : ℕ) : List ℝ :=
  if lam < EPSILON then Delta.samples 0 size
  else O.poissonRvs lam size

/-- `Poisson.log_likelihood` from `distributions/poisson.py`: Stirling
approximation of the factorials, with the correction terms always taken over
the nonzero observations. -/
def log_likelihood (lam : ℝ) (data : List ℝ) (nonzero_only : Bool) : ℝ :=
  let nonzero_samples := data.filter (fun x => decide (0 < x))
  if lam < EPSILON then Delta.log_likelihood 0 data
  else
    let s := if nonzero_only then data.filter (fun x => decide (0 < x)) else data
    s.sum * Real.log lam - (s.length : ℝ) * lam
      - 0.5 * (s.length : ℝ) * Real.log (2 * Real.pi)
      - (nonzero_samples.map (fun x => (0.5 + x) * Real.log x - x)).sum
      - (nonzero_samples.map
          (fun x => Real.log (1 + 1 / (12 * x) + 1 / (288 * x ^ 2)))).sum

end Poisson

namespace Exponential

/-- `Exponential.pmf` from `distributions/exponential.py`: delta fallback
below EPSILON, otherwise `exp(-x/beta) * (1-exp(-1/beta))` on `0..domain`. -/
def pmf (beta : ℝ) (domain : ℕ) : List ℝ :=
  if beta < EPSILON then Delta.pmf 0 domain
  else
    let c := 1 - Real.exp (-1 / beta)
    (List.range (domain + 1)).map (fun (x : ℕ) => Real.exp (-(x : ℝ) / beta) * c)

/-- `Exponential.samples` from `distributions/exponential.py`. -/
def samples (O : Oracles) (beta : ℝ) (size domain : ℕ) : List ℝ :=
  if beta < EPSILON then Delta.samples 0 size
  else generate_discrete_samples O
    ((List.range (domain + 1)).map (fun (x : ℕ) => (x : ℝ)))
    ((List.range (domain + 1)).map (fun (x : ℕ) => Real.exp (-(x : ℝ) / beta))) size

/-- `Exponential.log_likelihood` from `distributions/exponential.py`: the
`nonzero_only` flag filters the observations used. -/
def log_likelihood (beta : ℝ) (data : List ℝ) (nonzero_only : Bool) : ℝ :=
  if beta < EPSILON then Delta.log_likelihood 0 data
  else
    let s := if nonzero_only then data.filter (fun x => decide (0 < x)) else data
    (s.length : ℝ) * Real.log (1 - Real.exp (-1 / beta)) - s.sum / beta

end Exponential

namespace Lognormal

/-- Lognormal kernel `exp(-((ln x - mu)/sigma)^2/2)/x` at integer `x`. -/
def kernel (mu sigma : ℝ) (x : ℕ) : ℝ :=
  Real.exp (-0.5 * ((Real.log x - mu) / sigma) ^ 2) / x

/-- `Lognormal.pmf` from `distributions/lognormal.py`: Delta(e^mu) fallback
when sigma < EPSILON, otherwise the kernel on `1..domain` (with a leading 0)
normalized by its sum. -/
def pmf (mu sigma : ℝ) (domain : ℕ) : List ℝ :=
  if sigma < EPSILON then Delta.pmf (Real.exp mu) domain
  else
    let l := 0 :: (List.range' 1 domain).map (kernel mu sigma)
    l.map (· / l.sum)

/-- `Lognormal.samples` from `distributions/lognormal.py`. -/
def samples (O : Oracles) (mu sigma : ℝ) (size domain : ℕ) : List ℝ :=
  if sigma < EPSILON then Delta.samples (Real.exp mu) size
  else generate_discrete_samples O
    ((List.range' 1 domain).map (fun (x : ℕ) => (x : ℝ)))
    ((List.range' 1 domain).map (kernel mu sigma)) size

/-- `Lognormal.log_likelihood` from `distributions/lognormal.py` (the active
code after the commented-out continuous version): Delta(0) fallback when
mu < EPSILON or sigma < EPSILON; the `nonzero_only` flag is unused. -/
def log_likelihood (mu sigma : ℝ) (data : List ℝ) (nonzero_only : Bool) : ℝ :=
  let nonzero_samples := data.filter (fun x => decide (0 < x))
  if mu < EPSILON ∨ sigma < EPSILON then Delta.log_likelihood 0 data
  else
    let c := ((List.range' 1 DEFAULT_PDF_MAX).map (kernel mu sigma)).sum;
    -(nonzero_samples.map Real.log).sum
      - (nonzero_samples.map (fun x => (Real.log x - mu) ^ 2)).sum
          / (2 * sigma ^ 2)
      - (data.length : ℝ) * Real.log c

end Lognormal

namespace Weibull

/-- Weibull kernel `x^(k-1) * exp(-(x/lam)^k)` at integer `x`. -/
def kernel (k lam : ℝ) (x : ℕ) : ℝ :=
  (x : ℝ) ^ (k - 1) * Real.exp (-((x : ℝ) / lam) ^ k)

/-- `Weibull.pmf` from `distributions/weibull.py`: Delta(0) fallback below
EPSILON; special value `1/lam` at `x = 0` when `0 <= k-1 < EPSILON`; the
kernel list is normalized by its sum. -/
def pmf (k lam : ℝ) (domain : ℕ) : List ℝ :=
  if k < EPSILON ∨ lam < EPSILON then Delta.pmf 0 domain
  else
    let l := if 0 ≤ k - 1 ∧ k - 1 < EPSILON
      then (1 / lam) :: (List.range' 1 domain).map (kernel k lam)
      else 0 :: (List.range' 1 domain).map (kernel k lam)
    l.map (· / l.sum)

/-- `Weibull.samples` from `distributions/weibull.py`. -/
def samples (O : Oracles) (k lam : ℝ) (size domain : ℕ) : List ℝ :=
  if k < EPSILON ∨ lam < EPSILON then Delta.samples 0 size
  else
    if 0 ≤ k - 1 ∧ k - 1 < EPSILON then
      generate_discrete_samples O
        (0 :: (List.range' 1 domain).map (fun (x : ℕ) => (x : ℝ)))
        ((1 / lam) :: (List.range' 1 domain).map (kernel k lam)) size
    else
      generate_discrete_samples O
        ((List.range' 1 domain).map (fun (x : ℕ) => (x : ℝ)))
        ((List.range' 1 domain).map (kernel k lam)) size

/-- `Weibull.log_likelihood` from `distributions/weibull.py`: note that the
normalizer term is multiplied by `len(data)` and the normalizer is the plain
kernel sum on `1..DEFAULT_PDF_MAX` (no `k = 1` special value). -/
def log_likelihood (k lam : ℝ) (data : List ℝ) : ℝ :=
  let nonzero_samples := data.filter (fun x => decide (0 < x))
  if k < EPSILON ∨ lam < EPSILON then Delta.log_likelihood 0 data
  else
    let c := ((List.range' 1 DEFAULT_PDF_MAX).map (kernel k lam)).sum
    (k - 1) * (nonzero_samples.map Real.log).sum
      - 1 / lam ^ k * (data.map (fun x => x ^ k)).sum
      - (data.length : ℝ) * Real.log c

end Weibull

namespace ShiftedPowerLaw

/-- `ShiftedPowerLaw.pmf` from `distributions/shifted_power_law.py`:
delta/uniform fallback for small exponent, delta fallback for a small
normalizer, otherwise `(x+x0)^(-gamma) / zeta(gamma, x0)` on `0..domain`. -/
def pmf (O : Oracles) (gamma x0 : ℝ) (domain : ℕ) : List ℝ :=
  if gamma < EPSILON then
    if x0 < EPSILON then Delta.pmf 0 domain else Uniform.pmf domain
  else
    let c := O.zeta gamma x0
    if c < EPSILON then Delta.pmf 0 domain
    else (List.range (domain + 1)).map (fun (x : ℕ) => ((x : ℝ) + x0) ^ (-gamma) / c)

/-- `ShiftedPowerLaw.samples` from `distributions/shifted_power_law.py`; the
non-degenerate branch always samples over `0..DEFAULT_SAMPLE_MAX`. -/
def samples (O : Oracles) (gamma x0 : ℝ) (size : ℕ) : List ℝ :=
  if gamma < EPSILON then
    if x0 < EPSILON then Delta.samples 0 size
    else Uniform.samples O size DEFAULT_SAMPLE_MAX
  else
    if O.zeta gamma x0 < EPSILON then Delta.samples 0 size
    else generate_discrete_samples O
      ((List.range (DEFAULT_SAMPLE_MAX + 1)).map (fun (x : ℕ) => (x : ℝ)))
      ((List.range (DEFAULT_SAMPLE_MAX + 1)).map
        (fun (x : ℕ) => ((x : ℝ) + x0) ^ (-gamma))) size

/-- `ShiftedPowerLaw.log_likelihood` from
`distributions/shifted_power_law.py`: the `nonzero_only` flag filters the
observations used in the main branch. -/
def log_likelihood (O : Oracles) (gamma x0 : ℝ) (data : List ℝ)
    (nonzero_only : Bool) : ℝ :=
  if gamma < EPSILON then
    if x0 < EPSILON then Delta.log_likelihood 0 data
    else Uniform.log_likelihood data
  else
    let c := O.zeta gamma x0
    if c < EPSILON then Delta.log_likelihood 0 data
    else
      let s := if nonzero_only then data.filter (fun x => decide (0 < x)) else data;
      -gamma * (s.map (fun x => Real.log (x + x0))).sum
        - (s.length : ℝ) * Real.log c

end ShiftedPowerLaw

namespace TruncatedPowerLaw

/-- `TruncatedPowerLaw.pmf` from `distributions/truncated_power_law.py`:
uniform fallback for small exponent, Delta(1) fallback for small cutoff or
small normalizer, otherwise `x^(-gamma) e^(-x/kappa) / Li_gamma(e^(-1/kappa))`
on `1..domain` with a leading 0. -/
def pmf (O : Oracles) (gamma kappa : ℝ) (domain : ℕ) : List ℝ :=
  if gamma < EPSILON then Uniform.pmf domain
  else if kappa < EPSILON then Delta.pmf 1 domain
  else
    let c := O.polylog gamma (Real.exp (-1 / kappa))
    if c < EPSILON then Delta.pmf 1 domain
    else 0 :: (List.range' 1 domain).map
      (fun (x : ℕ) => (x : ℝ) ^ (-gamma) * Real.exp (-(x : ℝ) / kappa) / c)

/-- `TruncatedPowerLaw.samples` from `distributions/truncated_power_law.py`. -/
def samples (O : Oracles) (gamma kappa : ℝ) (size domain : ℕ) : List ℝ :=
  if gamma < EPSILON then Uniform.samples O size DEFAULT_SAMPLE_MAX
  else if kappa < EPSILON then Delta.samples 1 size
  else
    if O.polylog gamma (Real.exp (-1 / kappa)) < EPSILON then Delta.samples 1 size
    else generate_discrete_samples O
      ((List.range' 1 domain).map (fun (x : ℕ) => (x : ℝ)))
      ((List.range' 1 domain).map
        (fun (x : ℕ) => (x : ℝ) ^ (-gamma) * Real.exp (-(x : ℝ) / kappa))) size

/-- `TruncatedPowerLaw.log_likelihood` from
`distributions/truncated_power_law.py`: the `nonzero` flag is unused. -/
def log_likelihood (O : Oracles) (gamma kappa : ℝ) (data : List ℝ)
    (nonzero : Bool) : ℝ :=
  let nonzero_samples := data.filter (fun x => decide (0 < x))
  if gamma < EPSILON then Uniform.log_likelihood data
  else if kappa < EPSILON then Delta.log_likelihood 1 data
  else
    let c := O.polylog gamma (Real.exp (-1 / kappa));
    if c < EPSILON then Delta.log_likelihood 1 data
    else -gamma * (nonzero_samples.map Real.log).sum
      - data.sum / kappa - (data.length : ℝ) * Real.log c

end TruncatedPowerLaw

/-- `aic_measure` from `calculation/measures.py`. -/
def aic_measure (log_likelihood : ℝ) (params_num : ℕ) : ℝ :=
  -2 * (log_likelihood - (params_num : ℝ))

/-- `bic_measure` from `calculation/measures.py`. -/
def bic_measure (log_likelihood : ℝ) (params_num sample_size : ℕ) : ℝ :=
  -2 * log_likelihood + (params_num : ℝ) * Real.log (sample_size : ℝ)

/-! Registry and string-keyed dispatchers from `distributions/distribution.py`.
Unmatched tags (and parameter lists too short for the variant's arity, where
Python raises an IndexError) yield `none`. -/

def DISTRIBUTION_POISSON : String := "poisson"

def DISTRIBUTION_EXPONENTIAL : String := "exponential"

def DISTRIBUTION_LOGNORMAL : String := "lognormal"

def DISTRIBUTION_WEIBULL : String := "weibull"

def DISTRIBUTION_SHIFTED_POWER_LAW : String := "shifted-power-law"

def DISTRIBUTION_TRUNCATED_POWER_LAW : String := "truncated-power-law"

/-- `DISTRIBUTIONS` from `distributions/distribution.py`: the list of all
registered distribution tags. -/
def DISTRIBUTIONS : List String :=
  [DISTRIBUTION_POISSON,
   DISTRIBUTION_EXPONENTIAL,
   DISTRIBUTION_SHIFTED_POWER_LAW,
   DISTRIBUTION_TRUNCATED_POWER_LAW,
   DISTRIBUTION_LOGNORMAL,
   DISTRIBUTION_WEIBULL]

/-- Modelled from the spec: `distribution.get()` is called by the model
selection orchestrator, the fitting engine and the tests but is absent from
`distributions/distribution.py`; per the spec's configuration contract the
default candidate set is the full registry. -/
def get : List String := DISTRIBUTIONS

/-- `pmf` dispatcher from `distributions/distribution.py`. -/
def pmf (O : Oracles) (distribution : String) (params : List ℝ)
    (domain : ℕ) : Option (List ℝ) :=
  if distribution = DISTRIBUTION_POISSON then
    match params with
    | lam :: _ => some (Poisson.pmf O lam domain)
    | [] => none
  else if distribution = DISTRIBUTION_EXPONENTIAL then
    match params with
    | beta :: _ => some (Exponential.pmf beta domain)
    | [] => none
  else if distribution = DISTRIBUTION_LOGNORMAL then
    match params with
    | mu :: sigma :: _ => some (Lognormal.pmf mu sigma domain)
    | _ => none
  else if distribution = DISTRIBUTION_WEIBULL then
    match params with
    | k :: lam :: _ => some (Weibull.pmf k lam domain)
    | _ => none
  else if distribution = DISTRIBUTION_TRUNCATED_POWER_LAW then
    match params with
    | gamma :: kappa :: _ => some (TruncatedPowerLaw.pmf O gamma kappa domain)
    | _ => none
  else if distribution = DISTRIBUTION_SHIFTED_POWER_LAW then
    match params with
    | gamma :: x0 :: _ => some (ShiftedPowerLaw.pmf O gamma x0 domain)
    | _ => none
  else none

/-- `cdf` dispatcher from `distributions/distribution.py`: cumulative sums of
the pmf. -/
def cdf (O : Oracles) (distribution : String) (params : List ℝ)
    (domain : ℕ) : Option (List ℝ) :=
  (pmf O distribution params domain).map
    (fun l => (List.range l.length).map (fun i => ((l.take (i + 1)).sum)))

/-- `sample` dispatcher from `distributions/distribution.py`; the per-variant
domain arguments take their source defaults. -/
def sample (O : Oracles) (distribution : String) (params : List ℝ)
    (size : ℕ) : Option (List ℝ) :=
  if distribution = DISTRIBUTION_POISSON then
    match params with
    | lam :: _ => some (Poisson.samples O lam size)
    | [] => none
  else if distribution = DISTRIBUTION_EXPONENTIAL then
    match params with
    | beta :: _ => some (Exponential.samples O beta size DEFAULT_SAMPLE_MAX)
    | [] => none
  else if distribution = DISTRIBUTION_LOGNORMAL then
    match params with
    | mu :: sigma :: _ => some (Lognormal.samples O mu sigma size DEFAULT_SAMPLE_MAX)
    | _ => none
  else if distribution = DISTRIBUTION_WEIBULL then
    match params with
    | k :: lam :: _ => some (Weibull.samples O k lam size DEFAULT_SAMPLE_MAX)
    | _ => none
  else if distribution = DISTRIBUTION_TRUNCATED_POWER_LAW then
    match params with
    | gamma :: kappa :: _ =>
        some (TruncatedPowerLaw.samples O gamma kappa size DEFAULT_SAMPLE_MAX)
    | _ => none
  else if distribution = DISTRIBUTION_SHIFTED_POWER_LAW then
    match params with
    | gamma :: x0 :: _ => some (ShiftedPowerLaw.samples O gamma x0 size)
    | _ => none
  else none

/-- `log_likelihood` dispatcher from `distributions/distribution.py`: the
`nonzero_only` flag is forwarded only to the Exponential and ShiftedPowerLaw
variants; the Poisson and Lognormal calls receive their Python default
`False`, and the Weibull and TruncatedPowerLaw variants take no flag or
ignore it. -/
def log_likelihood (O : Oracles) (distribution : String) (params : List ℝ)
    (data : List ℝ) (nonzero_only : Bool) : Option ℝ :=
  if distribution = DISTRIBUTION_POISSON then
    match params with
    | lam :: _ => some (Poisson.log_likelihood lam data false)
    | [] => none
  else if distribution = DISTRIBUTION_EXPONENTIAL then
    match params with
    | beta :: _ => some (Exponential.log_likelihood beta data nonzero_only)
    | [] => none
  else if distribution = DISTRIBUTION_LOGNORMAL then
    match params with
    | mu :: sigma :: _ => some (Lognormal.log_likelihood mu sigma data false)
    | _ => none
  else if distribution = DISTRIBUTION_WEIBULL then
    match params with
    | k :: lam :: _ => some (Weibull.log_likelihood k lam data)
    | _ => none
  else if distribution = DISTRIBUTION_TRUNCATED_POWER_LAW then
    match params with
    | gamma :: kappa :: _ =>
        some (TruncatedPowerLaw.log_likelihood O gamma kappa data false)
    | _ => none
  else if distribution = DISTRIBUTION_SHIFTED_POWER_LAW then
    match params with
    | gamma :: x0 :: _ =>
        some (ShiftedPowerLaw.log_likelihood O gamma x0 data nonzero_only)
    | _ => none
  else none

/-! Scoring stage of the model-selection orchestrator,
`calculation/model_selection.py`.  The fit stage wraps the opaque simplex
optimizer, so the achieved log-likelihoods enter as an abstract assignment. -/

/-- Weight table of `perform_aic_test` / `perform_bic_test` in
`calculation/model_selection.py`: per-candidate criterion deltas against the
minimum, weights `e^(-delta/2)`, each normalized by the total computed once
over all candidates. -/
def weightTable (tags : List String) (criterion : String → ℝ) :
    List (String × ℝ) :=
  let deltas := fun d => criterion d - npMin (tags.map criterion)
  let weights := fun d => Real.exp (-(deltas d) / 2)
  let weights_total := (tags.map weights).sum
  tags.map (fun d => (d, weights d / weights_total))

/-- `perform_aic_test` scoring stage from `calculation/model_selection.py`,
with the per-candidate fitted log-likelihoods and parameter counts abstract. -/
def perform_aic_report (fitLL : String → ℝ) (fitNParams : String → ℕ) :
    List (String × ℝ) :=
  weightTable get (fun d => aic_measure (fitLL d) (fitNParams d))

/-- `perform_bic_test` scoring stage from `calculation/model_selection.py`. -/
def perform_bic_report (fitLL : String → ℝ) (fitNParams : String → ℕ)
    (sample_size : ℕ) : List (String × ℝ) :=
  weightTable get (fun d => bic_measure (fitLL d) (fitNParams d) sample_size)

/-- Best-model scan of `test_aic_ms` / `test_bic_ms` in `tests.py`: starting
from the first tag, each tag replaces the current best when its weight is
strictly greater; the weight dict entry of the current tag is then divided in
place by the current sum of all weight entries. -/
def bestScan (tags : List String) (w0 : String → ℝ) : String :=
  (tags.foldl
    (fun st d =>
      let w := st.1
      let best := if w d > w st.2 then d else st.2
      (Function.update w d (w d / (tags.map w).sum), best))
    (w0, tags.headD "")).2

/-- Best-model designation of `test_aic_ms` in `tests.py`: AIC deltas against
the minimum, weights `e^(-delta/2)`, then the `bestScan` loop. -/
def testScanBest (tags : List String) (criterion : String → ℝ) : String :=
  bestScan tags
    (fun d => Real.exp (-(criterion d - npMin (tags.map criterion)) / 2))

/-- The spec's comparison expression for the likelihood/pmf agreement check:
the sum of `log(pmf[x])` over the nonzero observations of an integer data
vector.  Written from the spec's words, for comparison with the source
log-likelihoods. -/
def sumLogPmf (p : List ℝ) (data : List ℕ) : ℝ :=
  ((data.filter (fun x => decide (0 < x))).map
    (fun x => Real.log (p.getD x 0))).sum

/-! Generic list-sum helpers used by several proofs below. -/

theorem sum_map_add_real {α : Type} (l : List α) (f g : α → ℝ) :
    (l.map (fun x => f x + g x)).sum = (l.map f).sum + (l.map g).sum := by
  induction l with
  | nil => simp
  | cons a t ih => simp only [List.map_cons, List.sum_cons, ih]; ring

theorem sum_map_smul_real {α : Type} (l : List α) (c : ℝ) (f : α → ℝ) :
    (l.map (fun x => c * f x)).sum = c * (l.map f).sum := by
  induction l with
  | nil => simp
  | cons a t ih => simp only [List.map_cons, List.sum_cons, ih]; ring

theorem sum_map_const_real {α : Type} (l : List α) (c : ℝ) :
    (l.map (fun _ => c)).sum = (l.length : ℝ) * c := by
  induction l with
  | nil => simp
  | cons a t ih =>
    simp only [List.map_cons, List.sum_cons, ih, List.length_cons]
    push_cast
    ring

end ModelPy

open ModelPy

/-- C6 counterexample: `Delta.log_likelihood` at location 0 on data `[1]`
differs from the claim's narrow-Gaussian formula, whose quadratic penalty has
denominator `2*EPSILON^2`; the code divides by `4*EPSILON^2`. -/
theorem C6_counterexample :
    Delta.log_likelihood 0 [1] ≠
      -(1 : ℝ) * Real.log (EPSILON * Real.sqrt (2 * Real.pi))
        - ((1 : ℝ) - 0) ^ 2 / (2 * EPSILON ^ 2) := by
  have hcode : Delta.log_likelihood 0 [1] =
      -(1 : ℝ) * Real.log (EPSILON * Real.sqrt (2 * Real.pi)) - 250000 := by
    simp only [Delta.log_likelihood, List.map_cons, List.map_nil, List.sum_cons,
      List.sum_nil, List.length_cons, List.length_nil]
    norm_num [EPSILON]
  have hclaim : ((1 : ℝ) - 0) ^ 2 / (2 * EPSILON ^ 2) = 500000 := by
    norm_num [EPSILON]
  rw [hcode, hclaim]
  intro h
  have h250 : (250000 : ℝ) = 500000 := by linarith
  norm_num at h250

/-- C6 amended: `Delta.log_likelihood(params=[x0], data)` equals
`-len(data)*ln(EPSILON*sqrt(2*pi)) - sum((x-x0)^2)/(4*EPSILON^2)`: a
narrow-Gaussian style penalty whose quadratic term carries denominator
`4*EPSILON^2` rather than the `2*EPSILON^2` of a true Gaussian of variance
EPSILON^2. -/
theorem C6_amended (x0 : ℝ) (data : List ℝ) :
    Delta.log_likelihood x0 data =
      -(data.length : ℝ) * Real.log (EPSILON * Real.sqrt (2 * Real.pi))
        - (data.map (fun x => (x - x0) ^ 2)).sum / (4 * EPSILON ^ 2) := by
  unfold Delta.log_likelihood
  rw [show (fun x => 0.5 * (x - x0) ^ 2) = (fun x => (0.5 : ℝ) * (x - x0) ^ 2)
    from rfl]
  rw [ModelPy.sum_map_smul_real data 0.5 (fun x => (x - x0) ^ 2)]
  have hE : (EPSILON : ℝ) ^ 2 ≠ 0 := by norm_num [EPSILON]
  field_simp
  ring

/-- C9: for any candidate list and any (finite, real) criterion assignment,
the normalized AIC/BIC weights `e^(-delta/2) / total` of the scoring stage
sum to 1 over the candidates. -/
theorem C9_weights_sum (tags : List String) (criterion : String → ℝ)
    (h : tags ≠ []) :
    ((weightTable tags criterion).map Prod.snd).sum = 1 := by
  unfold weightTable
  simp only [List.map_map, Function.comp_def]
  have hT : 0 < (tags.map
      (fun d => Real.exp (-(criterion d - npMin (tags.map criterion)) / 2))).sum := by
    apply List.sum_pos
    · intro x hx
      simp only [List.mem_map] at hx
      obtain ⟨d, _, rfl⟩ := hx
      exact Real.exp_pos _
    · simpa using h
  simp only [div_eq_mul_inv]
  rw [List.sum_map_mul_right]
  exact mul_inv_cancel₀ (ne_of_gt hT)

/-- C9 witness: the normalized weights of a concrete one-candidate run sum
to 1. -/
theorem C9_weights_sum_witness :
    (["x"] ≠ ([] : List String)) ∧
      ((weightTable ["x"] (fun _ => 0)).map Prod.snd).sum = 1 :=
  ⟨by simp, C9_weights_sum ["x"] (fun _ => 0) (by simp)⟩

/-- C4 counterexample: the Normal variant is not registered: the tag
"normal" is absent from the registry and the pmf dispatcher yields no result
for it. -/
theorem C4_counterexample :
    "normal" ∉ DISTRIBUTIONS ∧ pmf trivOracles "normal" [1, 1] 10 = none := by
  constructor
  · decide
  · rfl

/-- C4 amended: the registry comprises exactly the six tags poisson,
exponential, shifted-power-law, truncated-power-law, lognormal and weibull;
dispatching pmf, sample and log_likelihood on each registered tag yields that
variant's result, and the AIC/BIC model-selection scoring runs over exactly
these six candidates. -/
theorem C4_amended :
    DISTRIBUTIONS = ["poisson", "exponential", "shifted-power-law",
      "truncated-power-law", "lognormal", "weibull"] ∧
    get = DISTRIBUTIONS ∧
    (∀ (O : Oracles) (lam : ℝ) (r : List ℝ) (domain : ℕ),
      pmf O "poisson" (lam :: r) domain = some (Poisson.pmf O lam domain) ∧
      sample O "poisson" (lam :: r) domain = some (Poisson.samples O lam domain) ∧
      ∀ (data : List ℝ) (flag : Bool),
        log_likelihood O "poisson" (lam :: r) data flag =
          some (Poisson.log_likelihood lam data false)) ∧
    (∀ (O : Oracles) (beta : ℝ) (r : List ℝ) (domain : ℕ),
      pmf O "exponential" (beta :: r) domain = some (Exponential.pmf beta domain) ∧
      sample O "exponential" (beta :: r) domain =
        some (Exponential.samples O beta domain DEFAULT_SAMPLE_MAX) ∧
      ∀ (data : List ℝ) (flag : Bool),
        log_likelihood O "exponential" (beta :: r) data flag =
          some (Exponential.log_likelihood beta data flag)) ∧
    (∀ (O : Oracles) (mu sigma : ℝ) (r : List ℝ) (domain : ℕ),
      pmf O "lognormal" (mu :: sigma :: r) domain =
        some (Lognormal.pmf mu sigma domain) ∧
      sample O "lognormal" (mu :: sigma :: r) domain =
        some (Lognormal.samples O mu sigma domain DEFAULT_SAMPLE_MAX) ∧
      ∀ (data : List ℝ) (flag : Bool),
        log_likelihood O "lognormal" (mu :: sigma :: r) data flag =
          some (Lognormal.log_likelihood mu sigma data false)) ∧
    (∀ (O : Oracles) (k lam : ℝ) (r : List ℝ) (domain : ℕ),
      pmf O "weibull" (k :: lam :: r) domain = some (Weibull.pmf k lam domain) ∧
      sample O "weibull" (k :: lam :: r) domain =
        some (Weibull.samples O k lam domain DEFAULT_SAMPLE_MAX) ∧
      ∀ (data : List ℝ) (flag : Bool),
        log_likelihood O "weibull" (k :: lam :: r) data flag =
          some (Weibull.log_likelihood k lam data)) ∧
    (∀ (O : Oracles) (gamma kappa : ℝ) (r : List ℝ) (domain : ℕ),
      pmf O "truncated-power-law" (gamma :: kappa :: r) domain =
        some (TruncatedPowerLaw.pmf O gamma kappa domain) ∧
      sample O "truncated-power-law" (gamma :: kappa :: r) domain =
        some (TruncatedPowerLaw.samples O gamma kappa domain DEFAULT_SAMPLE_MAX) ∧
      ∀ (data : List ℝ) (flag : Bool),
        log_likelihood O "truncated-power-law" (gamma :: kappa :: r) data flag =
          some (TruncatedPowerLaw.log_likelihood O gamma kappa data false)) ∧
    (∀ (O : Oracles) (gamma x0 : ℝ) (r : List ℝ) (domain : ℕ),
      pmf O "shifted-power-law" (gamma :: x0 :: r) domain =
        some (ShiftedPowerLaw.pmf O gamma x0 domain) ∧
      sample O "shifted-power-law" (gamma :: x0 :: r) domain =
        some (ShiftedPowerLaw.samples O gamma x0 domain) ∧
      ∀ (data : List ℝ) (flag : Bool),
        log_likelihood O "shifted-power-law" (gamma :: x0 :: r) data flag =
          some (ShiftedPowerLaw.log_likelihood O gamma x0 data flag)) ∧
    (∀ (fitLL : String → ℝ) (fitNP : String → ℕ),
      (perform_aic_report fitLL fitNP).map Prod.fst = DISTRIBUTIONS) ∧
    (∀ (fitLL : String → ℝ) (fitNP : String → ℕ) (n : ℕ),
      (perform_bic_report fitLL fitNP n).map Prod.fst = DISTRIBUTIONS) := by
  refine ⟨rfl, rfl, ?_, ?_, ?_, ?_, ?_, ?_, ?_, ?_⟩
  · exact fun O lam r domain => ⟨rfl, rfl, fun data flag => rfl⟩
  · exact fun O beta r domain => ⟨rfl, rfl, fun data flag => rfl⟩
  · exact fun O mu sigma r domain => ⟨rfl, rfl, fun data flag => rfl⟩
  · exact fun O k lam r domain => ⟨rfl, rfl, fun data flag => rfl⟩
  · exact fun O gamma kappa r domain => ⟨rfl, rfl, fun data flag => rfl⟩
  · exact fun O gamma x0 r domain => ⟨rfl, rfl, fun data flag => rfl⟩
  · intro fitLL fitNP
    simp [perform_aic_report, weightTable, List.map_map, Function.comp_def,
      ModelPy.get]
  · intro fitLL fitNP n
    simp [perform_bic_report, weightTable, List.map_map, Function.comp_def,
      ModelPy.get]

/-- Helper: the branchy source `ks_statistics` agrees with the spec's
formulation (pad the shorter CDF with trailing ones to the common length,
then take the maximum absolute pointwise difference). -/
theorem ks_statistics_eq_ksPadSpec (a b : List ℝ) :
    ks_statistics a b = ksPadSpec a b := by
  simp only [ks_statistics, ksPadSpec]
  rcases lt_trichotomy b.length a.length with h | h | h
  · rw [if_pos h, max_eq_left h.le, Nat.sub_self]
    simp
  · rw [if_neg (by omega), if_neg (by omega), h, max_self, Nat.sub_self]
    simp
  · rw [if_neg (by omega), if_pos h, max_eq_right h.le, Nat.sub_self]
    simp

/-- C8: `ks_statistics` returns the maximum absolute pointwise difference
after padding the shorter sequence with trailing 1.0 values, and on the
concrete scenario `([0.2,0.4,0.6,0.8,1.0], [0.3,0.7,1.0])` the second
sequence is padded to `[0.3,0.7,1.0,1.0,1.0]` and the result is 0.4. -/
theorem C8_ks_statistic :
    (∀ a b : List ℝ, ks_statistics a b = ksPadSpec a b) ∧
    ([0.3, 0.7, 1] ++ List.replicate (5 - 3) (1 : ℝ) = [0.3, 0.7, 1, 1, 1]) ∧
    ks_statistics [0.2, 0.4, 0.6, 0.8, 1] [0.3, 0.7, 1] = 0.4 := by
  refine ⟨ks_statistics_eq_ksPadSpec, by norm_num [List.replicate], ?_⟩
  have e1 : |(0.2 : ℝ) - 0.3| = 0.1 := by
    rw [abs_sub_comm, abs_of_nonneg (by norm_num)]; norm_num
  have e2 : |(0.4 : ℝ) - 0.7| = 0.3 := by
    rw [abs_sub_comm, abs_of_nonneg (by norm_num)]; norm_num
  have e3 : |(0.6 : ℝ) - 1| = 0.4 := by
    rw [abs_sub_comm, abs_of_nonneg (by norm_num)]; norm_num
  have e4 : |(0.8 : ℝ) - 1| = 0.2 := by
    rw [abs_sub_comm, abs_of_nonneg (by norm_num)]; norm_num
  have e5 : |(1 : ℝ) - 1| = 0 := by norm_num
  simp only [ks_statistics, List.length_cons, List.length_nil]
  rw [if_pos (by norm_num)]
  simp only [show (5 : ℕ) - 3 = 2 from rfl, List.replicate, List.append_assoc,
    List.cons_append, List.nil_append, List.zipWith]
  rw [e1, e2, e3, e4, e5]
  simp only [npMax, List.foldl]
  rw [max_eq_right (by norm_num : (0.1 : ℝ) ≤ 0.3),
    max_eq_right (by norm_num : (0.3 : ℝ) ≤ 0.4),
    max_eq_left (by norm_num : (0.2 : ℝ) ≤ 0.4),
    max_eq_left (by norm_num : (0 : ℝ) ≤ 0.4)]

/-- Helper: the nonzero filter on the concrete data vector `[0, 1]` keeps
exactly the nonzero observation. -/
theorem filter_zero_one :
    ([0, 1] : List ℝ).filter (fun x => decide (0 < x)) = [1] := by
  simp only [List.filter_cons, List.filter_nil, decide_eq_true_eq]
  rw [if_neg (by norm_num), if_pos (by norm_num)]

/-- C10: at the dispatcher level the `nonzero_only` flag is inert for the
Poisson, Lognormal, Weibull and TruncatedPowerLaw tags (it is not forwarded
to, or is unused by, those variants), while the Exponential and
ShiftedPowerLaw tags can return different values for the two flag settings
(witnessed at concrete parameters and data containing a zero). -/
theorem C10_nonzero_flag (O : Oracles) (params : List ℝ) (data : List ℝ) :
    (log_likelihood O "poisson" params data true =
      log_likelihood O "poisson" params data false) ∧
    (log_likelihood O "lognormal" params data true =
      log_likelihood O "lognormal" params data false) ∧
    (log_likelihood O "weibull" params data true =
      log_likelihood O "weibull" params data false) ∧
    (log_likelihood O "truncated-power-law" params data true =
      log_likelihood O "truncated-power-law" params data false) ∧
    (log_likelihood O "exponential" [10] [0, 1] true ≠
      log_likelihood O "exponential" [10] [0, 1] false) ∧
    (EPSILON ≤ O.zeta 1 1 → O.zeta 1 1 ≠ 1 →
      log_likelihood O "shifted-power-law" [1, 1] [0, 1] true ≠
        log_likelihood O "shifted-power-law" [1, 1] [0, 1] false) := by
  have hdexp : ∀ b : Bool, log_likelihood O "exponential" [10] [0, 1] b =
      some (Exponential.log_likelihood 10 [0, 1] b) := fun b => rfl
  have hdspl : ∀ b : Bool, log_likelihood O "shifted-power-law" [1, 1] [0, 1] b =
      some (ShiftedPowerLaw.log_likelihood O 1 1 [0, 1] b) := fun b => rfl
  have hEps10 : ¬((10 : ℝ) < EPSILON) := by norm_num [EPSILON]
  have hEps1 : ¬((1 : ℝ) < EPSILON) := by norm_num [EPSILON]
  refine ⟨rfl, rfl, rfl, rfl, ?_, ?_⟩
  · rw [hdexp, hdexp]
    simp only [ne_eq, Option.some.injEq]
    have htrue : Exponential.log_likelihood 10 [0, 1] true =
        1 * Real.log (1 - Real.exp (-1 / 10)) - 1 / 10 := by
      simp only [Exponential.log_likelihood]
      rw [if_neg hEps10, if_true, filter_zero_one]
      norm_num
    have hfalse : Exponential.log_likelihood 10 [0, 1] false =
        2 * Real.log (1 - Real.exp (-1 / 10)) - 1 / 10 := by
      simp only [Exponential.log_likelihood]
      rw [if_neg hEps10, if_neg (by simp : ¬(false = true))]
      norm_num
    rw [htrue, hfalse]
    have hc0 : (0 : ℝ) < 1 - Real.exp (-1 / 10) := by
      have h1 : Real.exp (-1 / 10) < 1 := by
        rw [Real.exp_lt_one_iff]
        norm_num
      linarith
    have hc1 : 1 - Real.exp (-1 / 10) < 1 := by
      have := Real.exp_pos (-1 / 10)
      linarith
    have hlog : Real.log (1 - Real.exp (-1 / 10)) < 0 := Real.log_neg hc0 hc1
    intro h
    nlinarith [hlog]
  · intro hz1 hz2
    rw [hdspl, hdspl]
    simp only [ne_eq, Option.some.injEq]
    have hznlt : ¬(O.zeta 1 1 < EPSILON) := not_lt.mpr hz1
    have htrue : ShiftedPowerLaw.log_likelihood O 1 1 [0, 1] true =
        -1 * Real.log (1 + 1) - 1 * Real.log (O.zeta 1 1) := by
      simp only [ShiftedPowerLaw.log_likelihood]
      rw [if_neg hEps1, if_neg hznlt, if_true, filter_zero_one]
      norm_num
    have hfalse : ShiftedPowerLaw.log_likelihood O 1 1 [0, 1] false =
        -1 * (Real.log (0 + 1) + Real.log (1 + 1)) - 2 * Real.log (O.zeta 1 1) := by
      simp only [ShiftedPowerLaw.log_likelihood]
      rw [if_neg hEps1, if_neg hznlt, if_neg (by simp : ¬(false = true))]
      norm_num
    rw [htrue, hfalse]
    have hcpos : (0 : ℝ) < O.zeta 1 1 := by
      have : (0 : ℝ) < EPSILON := by norm_num [EPSILON]
      linarith
    have hlog : Real.log (O.zeta 1 1) ≠ 0 := by
      intro h
      rcases Real.log_eq_zero.mp h with h0 | h0 | h0
      · exact absurd h0 (ne_of_gt hcpos)
      · exact hz2 h0
      · linarith
    have hz : Real.log ((0 : ℝ) + 1) = 0 := by norm_num
    rw [hz]
    intro h
    apply hlog
    nlinarith [h]

/-- C10 witness: at the trivial oracle assignment (whose zeta value is 2) the
ShiftedPowerLaw tag indeed returns different dispatcher-level log-likelihoods
for the two flag settings, and the Poisson tag returns equal ones. -/
theorem C10_nonzero_flag_witness :
    (EPSILON ≤ trivOracles.zeta 1 1) ∧ (trivOracles.zeta 1 1 ≠ 1) ∧
    (log_likelihood trivOracles "poisson" [3] [1] true =
      log_likelihood trivOracles "poisson" [3] [1] false) ∧
    (log_likelihood trivOracles "shifted-power-law" [1, 1] [0, 1] true ≠
      log_likelihood trivOracles "shifted-power-law" [1, 1] [0, 1] false) := by
  have h1 : EPSILON ≤ trivOracles.zeta 1 1 := by
    show EPSILON ≤ 2
    norm_num [EPSILON]
  have h2 : trivOracles.zeta 1 1 ≠ 1 := by
    show (2 : ℝ) ≠ 1
    norm_num
  exact ⟨h1, h2, (C10_nonzero_flag trivOracles [3] [1]).1,
    (C10_nonzero_flag trivOracles [1, 1] [0, 1]).2.2.2.2.2 h1 h2⟩

/-- Helper: length of the Delta pmf is governed by `max(int(x0), domain)`,
not by `domain` alone. -/
theorem delta_pmf_length (x0 : ℝ) (domain : ℕ) :
    (Delta.pmf x0 domain).length = max (pyInt x0).toNat domain + 1 := by
  simp [Delta.pmf]
  omega

/-- C7 counterexample: `Delta.pmf` at location 5 with domain 2 has 6 entries,
not `domain + 1 = 3`. -/
theorem C7_counterexample : (Delta.pmf 5 2).length ≠ 2 + 1 := by
  have h5 : pyInt 5 = 5 := by
    unfold pyInt
    rw [if_pos (by norm_num)]
    norm_num
  rw [delta_pmf_length, h5]
  decide

/-- C7 amended: every registered variant's pmf has exactly `domain + 1`
entries (for domains of size at least 1), except that a Delta substitution at
a location `x0` produces `max(int(x0), domain) + 1` entries; in particular
Lognormal with `sigma < EPSILON` produces `max(int(e^mu), domain) + 1`
entries, which exceeds `domain + 1` when `e^mu` exceeds the domain. -/
theorem C7_pmf_length (O : Oracles) (domain : ℕ) (hdom : 1 ≤ domain) :
    (∀ x0 : ℝ, (Delta.pmf x0 domain).length = max (pyInt x0).toNat domain + 1) ∧
    ((Uniform.pmf domain).length = domain + 1) ∧
    (∀ lam, (Poisson.pmf O lam domain).length = domain + 1) ∧
    (∀ beta, (Exponential.pmf beta domain).length = domain + 1) ∧
    (∀ mu sigma, EPSILON ≤ sigma →
      (Lognormal.pmf mu sigma domain).length = domain + 1) ∧
    (∀ mu sigma, sigma < EPSILON →
      (Lognormal.pmf mu sigma domain).length =
        max (pyInt (Real.exp mu)).toNat domain + 1) ∧
    (∀ k lam, (Weibull.pmf k lam domain).length = domain + 1) ∧
    (∀ gamma x0, (ShiftedPowerLaw.pmf O gamma x0 domain).length = domain + 1) ∧
    (∀ gamma kappa,
      (TruncatedPowerLaw.pmf O gamma kappa domain).length = domain + 1) := by
  have h0 : pyInt 0 = 0 := by
    unfold pyInt
    rw [if_pos le_rfl]
    norm_num
  have h1 : pyInt 1 = 1 := by
    unfold pyInt
    rw [if_pos (by norm_num)]
    norm_num
  have hd0 : (Delta.pmf 0 domain).length = domain + 1 := by
    rw [delta_pmf_length, h0]
    simp
  have hd1 : (Delta.pmf 1 domain).length = domain + 1 := by
    rw [delta_pmf_length, h1]
    simp
    omega
  have huni : (Uniform.pmf domain).length = domain + 1 := by
    simp [Uniform.pmf]
  refine ⟨fun x0 => delta_pmf_length x0 domain, huni, ?_, ?_, ?_, ?_, ?_, ?_, ?_⟩
  · intro lam
    by_cases h : lam < EPSILON
    · simp only [Poisson.pmf, if_pos h]
      exact hd0
    · rw [Poisson.pmf, if_neg h, List.length_map, List.length_range]
  · intro beta
    by_cases h : beta < EPSILON
    · simp only [Exponential.pmf, if_pos h]
      exact hd0
    · rw [Exponential.pmf, if_neg h]
      rw [List.length_map, List.length_range]
  · intro mu sigma hs
    rw [Lognormal.pmf, if_neg (not_lt.mpr hs)]
    rw [List.length_map, List.length_cons, List.length_map, List.length_range']
  · intro mu sigma hs
    simp only [Lognormal.pmf, if_pos hs]
    exact delta_pmf_length _ domain
  · intro k lam
    by_cases h : k < EPSILON ∨ lam < EPSILON
    · simp only [Weibull.pmf, if_pos h]
      exact hd0
    · by_cases hb : 0 ≤ k - 1 ∧ k - 1 < EPSILON
      · rw [Weibull.pmf, if_neg h, if_pos hb]
        rw [List.length_map, List.length_cons, List.length_map, List.length_range']
      · rw [Weibull.pmf, if_neg h, if_neg hb]
        rw [List.length_map, List.length_cons, List.length_map, List.length_range']
  · intro gamma x0
    by_cases hg : gamma < EPSILON
    · by_cases hx : x0 < EPSILON
      · simp only [ShiftedPowerLaw.pmf, if_pos hg, if_pos hx]
        exact hd0
      · simp only [ShiftedPowerLaw.pmf, if_pos hg, if_neg hx]
        exact huni
    · by_cases hc : O.zeta gamma x0 < EPSILON
      · simp only [ShiftedPowerLaw.pmf, if_neg hg, if_pos hc]
        exact hd0
      · rw [ShiftedPowerLaw.pmf, if_neg hg, if_neg hc]
        rw [List.length_map, List.length_range]
  · intro gamma kappa
    by_cases hg : gamma < EPSILON
    · simp only [TruncatedPowerLaw.pmf, if_pos hg]
      exact huni
    · by_cases hk : kappa < EPSILON
      · simp only [TruncatedPowerLaw.pmf, if_neg hg, if_pos hk]
        exact hd1
      · by_cases hc : O.polylog gamma (Real.exp (-1 / kappa)) < EPSILON
        · simp only [TruncatedPowerLaw.pmf, if_neg hg, if_neg hk, if_pos hc]
          exact hd1
        · rw [TruncatedPowerLaw.pmf, if_neg hg, if_neg hk, if_neg hc]
          rw [List.length_cons, List.length_map, List.length_range']

/-- C7 witness: at domain 3 the TruncatedPowerLaw and Delta pmf lengths take
the proven values. -/
theorem C7_pmf_length_witness :
    (1 ≤ 3) ∧
    ((TruncatedPowerLaw.pmf trivOracles 1 1 3).length = 3 + 1) ∧
    ((Delta.pmf 5 3).length = max (pyInt 5).toNat 3 + 1) :=
  ⟨by norm_num,
   (C7_pmf_length trivOracles 3 (by norm_num)).2.2.2.2.2.2.2.2 1 1,
   (C7_pmf_length trivOracles 3 (by norm_num)).1 5⟩

/-- Helper: on a two-tag list the `bestScan` loop designates the second tag
whenever its (untouched) weight exceeds the first tag's weight after the
latter was divided in place by the total. -/
theorem bestScan_pair (a b : String) (w : String → ℝ) (hab : b ≠ a)
    (h : w b > (Function.update w a (w a / (([a, b]).map w).sum)) a) :
    bestScan [a, b] w = b := by
  unfold bestScan
  simp only [List.foldl_cons, List.foldl_nil, List.headD_cons]
  rw [if_neg (lt_irrefl (w a))]
  rw [Function.update_noteq hab]
  rw [if_pos h]

/-- C5: evaluation of the `tests.py` best-model scan at the failing input:
two candidates with criterion values 0 and 1/2.  The candidate "a" has the
strictly smaller criterion (hence the larger weight e^0 = 1 > e^(-1/4)), yet
the scan designates "b", because the in-loop normalization divides the weight
of "a" by the running total before "b" is compared. -/
theorem C5_best_scan_eval :
    (fun d => if d = "a" then (0 : ℝ) else 1 / 2) "a" <
      (fun d => if d = "a" then (0 : ℝ) else 1 / 2) "b" ∧
    testScanBest ["a", "b"] (fun d => if d = "a" then (0 : ℝ) else 1 / 2) = "b" := by
  have hne : ¬("b" = "a") := by decide
  constructor
  · simp only
    rw [if_true, if_neg hne]
    norm_num
  · unfold testScanBest
    apply bestScan_pair _ _ _ hne
    rw [Function.update_same]
    simp only [List.map_cons, List.map_nil, List.sum_cons, List.sum_nil]
    rw [if_true, if_neg hne]
    simp only [npMin, List.foldl_cons, List.foldl_nil]
    rw [min_eq_left (by norm_num : (0 : ℝ) ≤ 1 / 2)]
    have h0 : Real.exp (-((0 : ℝ) - 0) / 2) = 1 := by norm_num [Real.exp_zero]
    have hx : Real.exp (-((1 : ℝ) / 2 - 0) / 2) = Real.exp (-(1 / 4)) := by norm_num
    rw [h0, hx]
    have hge : (3 : ℝ) / 4 ≤ Real.exp (-(1 / 4)) := by
      have := Real.add_one_le_exp (-(1 / 4) : ℝ)
      linarith
    have hpos : (0 : ℝ) < 1 + (Real.exp (-(1 / 4)) + 0) := by
      have := Real.exp_pos (-(1 / 4) : ℝ)
      linarith
    rw [gt_iff_lt, div_lt_iff₀ hpos]
    nlinarith [hge]

/-- Helper: closed form of the truncated geometric sum appearing in the
Exponential pmf. -/
theorem exp_geom_sum (beta : ℝ) (n : ℕ) :
    ((List.range n).map
      (fun (x : ℕ) => Real.exp (-(x : ℝ) / beta) * (1 - Real.exp (-1 / beta)))).sum
      = 1 - Real.exp (-1 / beta) ^ n := by
  induction n with
  | zero => simp
  | succ m ih =>
    rw [List.range_succ, List.map_append, List.sum_append, ih]
    simp only [List.map_cons, List.map_nil, List.sum_cons, List.sum_nil]
    have hq : Real.exp (-(m : ℝ) / beta) = Real.exp (-1 / beta) ^ m := by
      rw [← Real.exp_nat_mul]
      ring_nf
    rw [hq]
    ring

/-- Helper: every entry of the Delta pmf is nonnegative. -/
theorem delta_pmf_nonneg (x0 : ℝ) (domain : ℕ) :
    ∀ p ∈ Delta.pmf x0 domain, 0 ≤ p := by
  intro p hp
  simp only [Delta.pmf, List.mem_append, List.mem_replicate, List.mem_singleton] at hp
  rcases hp with (h | h) | h
  · rw [h.2]
  · rw [h]; norm_num
  · rw [h.2]

/-- C2 counterexample: for the Exponential variant at scale beta = 10000
(well above EPSILON) and the default domain 10000, the pmf sum misses 1 by
`e^(-10001/10000) > 1/9`, far outside the 1e-6 tolerance. -/
theorem C2_counterexample :
    EPSILON ≤ (10000 : ℝ) ∧
    ¬(|(Exponential.pmf 10000 10000).sum - 1| ≤ 1 / 1000000) := by
  constructor
  · norm_num [EPSILON]
  · have hguard : ¬((10000 : ℝ) < EPSILON) := by norm_num [EPSILON]
    have hsum : (Exponential.pmf 10000 10000).sum
        = 1 - Real.exp (-1 / 10000) ^ (10001 : ℕ) := by
      rw [Exponential.pmf, if_neg hguard]
      exact exp_geom_sum 10000 10001
    rw [hsum]
    have hq : Real.exp (-1 / 10000) ^ (10001 : ℕ)
        = Real.exp (-(10001 : ℝ) / 10000) := by
      rw [← Real.exp_nat_mul]
      norm_num
    rw [hq]
    have h2lt : Real.exp 2 < 9 := by
      have h1 : Real.exp 1 < 2.7182818286 := Real.exp_one_lt_d9
      have hx : Real.exp 2 = Real.exp 1 * Real.exp 1 := by
        rw [← Real.exp_add]; norm_num
      nlinarith [Real.exp_pos 1]
    have hmono : Real.exp (-2) ≤ Real.exp (-(10001 : ℝ) / 10000) :=
      Real.exp_le_exp.mpr (by norm_num)
    have hinv : (1 : ℝ) / 9 < Real.exp (-2) := by
      rw [Real.exp_neg]
      rw [div_lt_iff₀ (by norm_num : (0 : ℝ) < 9)]
      rw [inv_mul_eq_div, lt_div_iff₀ (Real.exp_pos 2)]
      linarith
    intro habs
    have h1 : |1 - Real.exp (-(10001 : ℝ) / 10000) - 1|
        = Real.exp (-(10001 : ℝ) / 10000) := by
      rw [show (1 : ℝ) - Real.exp (-(10001 : ℝ) / 10000) - 1
          = -(Real.exp (-(10001 : ℝ) / 10000)) by ring]
      rw [abs_neg, abs_of_pos (Real.exp_pos _)]
    rw [h1] at habs
    linarith

/-- C2 amended: every Exponential pmf entry is nonnegative for beta at least
EPSILON, but the entries sum to `1 - e^(-(domain+1)/beta)` (the pmf kernel is
normalized for the infinite support, not the truncated one), which is within
1e-6 of 1 only when `e^(-(domain+1)/beta)` is at most 1e-6; ShiftedPowerLaw
pmf entries are nonnegative throughout its valid domain (gamma and x0 at
least EPSILON). -/
theorem C2_pmf_entries (O : Oracles) (beta gamma x0 : ℝ) (domain : ℕ) :
    (EPSILON ≤ beta → ∀ p ∈ Exponential.pmf beta domain, 0 ≤ p) ∧
    (EPSILON ≤ beta → (Exponential.pmf beta domain).sum
      = 1 - Real.exp (-((domain : ℝ) + 1) / beta)) ∧
    (EPSILON ≤ gamma → EPSILON ≤ x0 →
      ∀ p ∈ ShiftedPowerLaw.pmf O gamma x0 domain, 0 ≤ p) := by
  have hepos : (0 : ℝ) < EPSILON := by norm_num [EPSILON]
  refine ⟨?_, ?_, ?_⟩
  · intro hb p hp
    have hbpos : (0 : ℝ) < beta := lt_of_lt_of_le hepos hb
    rw [Exponential.pmf, if_neg (not_lt.mpr hb)] at hp
    simp only [List.mem_map] at hp
    obtain ⟨x, _, rfl⟩ := hp
    have hc : 0 ≤ 1 - Real.exp (-1 / beta) := by
      have : Real.exp (-1 / beta) ≤ 1 := by
        rw [Real.exp_le_one_iff, neg_div]
        have : (0 : ℝ) < 1 / beta := by positivity
        linarith
      linarith
    exact mul_nonneg (Real.exp_nonneg _) hc
  · intro hb
    rw [Exponential.pmf, if_neg (not_lt.mpr hb)]
    rw [exp_geom_sum beta (domain + 1)]
    have hq : Real.exp (-1 / beta) ^ (domain + 1)
        = Real.exp (-((domain : ℝ) + 1) / beta) := by
      rw [← Real.exp_nat_mul]
      push_cast
      ring_nf
    rw [hq]
  · intro hg hx p hp
    rw [ShiftedPowerLaw.pmf, if_neg (not_lt.mpr hg)] at hp
    by_cases hc : O.zeta gamma x0 < EPSILON
    · rw [if_pos hc] at hp
      exact delta_pmf_nonneg 0 domain p hp
    · rw [if_neg hc] at hp
      simp only [List.mem_map] at hp
      obtain ⟨x, _, rfl⟩ := hp
      have hbase : (0 : ℝ) ≤ (x : ℝ) + x0 :=
        add_nonneg (Nat.cast_nonneg x) (le_trans hepos.le hx)
      have hcpos : (0 : ℝ) < O.zeta gamma x0 :=
        lt_of_lt_of_le hepos (not_lt.mp hc)
      exact div_nonneg (Real.rpow_nonneg hbase _) hcpos.le

/-- C2 witness: at beta = 1 and domain 2 the Exponential pmf entries are
nonnegative and their sum equals `1 - e^(-3)`. -/
theorem C2_pmf_entries_witness :
    (EPSILON ≤ (1 : ℝ)) ∧ (Exponential.pmf 1 2).sum = 1 - Real.exp (-3) := by
  have h1 : EPSILON ≤ (1 : ℝ) := by norm_num [EPSILON]
  refine ⟨h1, ?_⟩
  have h := (C2_pmf_entries trivOracles 1 1 1 2).2.1 h1
  rw [h]
  norm_num

/-- C1 counterexample: for Lognormal with mu = 1 and sigma = 0 (< EPSILON),
pmf substitutes Delta(e^mu) but log_likelihood substitutes Delta(0): on the
data vector [2] the log-likelihood differs from the Delta(e^1) one that the
claim requires. -/
theorem C1_counterexample :
    ((0 : ℝ) < EPSILON) ∧
    Lognormal.pmf 1 0 10000 = Delta.pmf (Real.exp 1) 10000 ∧
    Lognormal.log_likelihood 1 0 [2] false ≠
      Delta.log_likelihood (Real.exp 1) [2] := by
  have h0 : (0 : ℝ) < EPSILON := by norm_num [EPSILON]
  refine ⟨h0, ?_, ?_⟩
  · rw [Lognormal.pmf, if_pos h0]
  · have hll : Lognormal.log_likelihood 1 0 [2] false
        = Delta.log_likelihood 0 [2] := by
      rw [Lognormal.log_likelihood, if_pos (Or.inr h0)]
    rw [hll]
    simp only [Delta.log_likelihood, List.map_cons, List.map_nil, List.sum_cons,
      List.sum_nil, List.length_cons, List.length_nil]
    intro h
    have hlow : (2.7182818283 : ℝ) < Real.exp 1 := Real.exp_one_gt_d9
    have hhigh : Real.exp 1 < 2.7182818286 := Real.exp_one_lt_d9
    have hsq : ((2 : ℝ) - 0) ^ 2 = (2 - Real.exp 1) ^ 2 := by
      have hne : (EPSILON : ℝ) ^ 2 ≠ 0 := by norm_num [EPSILON]
      have hdiv : (0.5 : ℝ) * (0.5 * (2 - 0) ^ 2 + 0) / EPSILON ^ 2
          = 0.5 * (0.5 * (2 - Real.exp 1) ^ 2 + 0) / EPSILON ^ 2 := by
        linarith [h]
      field_simp at hdiv
      rcases hdiv with hd | hd
      · nlinarith [hd]
      · norm_num at hd
    nlinarith [hsq, hlow, hhigh]

/-- C1 amended: for the Poisson, Exponential, Weibull, ShiftedPowerLaw and
TruncatedPowerLaw variants, the degenerate substitution is consistent: pmf,
sample and log_likelihood all delegate to the same fallback distribution at
the same location; for Lognormal with sigma < EPSILON, pmf and sample
substitute Delta(e^mu) but log_likelihood substitutes Delta(0) (and it also
substitutes Delta(0) whenever mu < EPSILON, even for sigma >= EPSILON). -/
theorem C1_degenerate_substitution (O : Oracles)
    (mu sigma lam beta k wlam gamma x0 kappa : ℝ)
    (data : List ℝ) (size domain : ℕ) :
    (sigma < EPSILON →
      Lognormal.pmf mu sigma domain = Delta.pmf (Real.exp mu) domain ∧
      Lognormal.samples O mu sigma size domain = Delta.samples (Real.exp mu) size ∧
      Lognormal.log_likelihood mu sigma data false = Delta.log_likelihood 0 data) ∧
    (mu < EPSILON →
      Lognormal.log_likelihood mu sigma data false = Delta.log_likelihood 0 data) ∧
    (lam < EPSILON →
      Poisson.pmf O lam domain = Delta.pmf 0 domain ∧
      Poisson.samples O lam size = Delta.samples 0 size ∧
      ∀ b, Poisson.log_likelihood lam data b = Delta.log_likelihood 0 data) ∧
    (beta < EPSILON →
      Exponential.pmf beta domain = Delta.pmf 0 domain ∧
      Exponential.samples O beta size domain = Delta.samples 0 size ∧
      ∀ b, Exponential.log_likelihood beta data b = Delta.log_likelihood 0 data) ∧
    (k < EPSILON ∨ wlam < EPSILON →
      Weibull.pmf k wlam domain = Delta.pmf 0 domain ∧
      Weibull.samples O k wlam size domain = Delta.samples 0 size ∧
      Weibull.log_likelihood k wlam data = Delta.log_likelihood 0 data) ∧
    (gamma < EPSILON → x0 < EPSILON →
      ShiftedPowerLaw.pmf O gamma x0 domain = Delta.pmf 0 domain ∧
      ShiftedPowerLaw.samples O gamma x0 size = Delta.samples 0 size ∧
      ∀ b, ShiftedPowerLaw.log_likelihood O gamma x0 data b =
        Delta.log_likelihood 0 data) ∧
    (gamma < EPSILON → EPSILON ≤ x0 →
      ShiftedPowerLaw.pmf O gamma x0 domain = Uniform.pmf domain ∧
      ShiftedPowerLaw.samples O gamma x0 size =
        Uniform.samples O size DEFAULT_SAMPLE_MAX ∧
      ∀ b, ShiftedPowerLaw.log_likelihood O gamma x0 data b =
        Uniform.log_likelihood data) ∧
    (EPSILON ≤ gamma → O.zeta gamma x0 < EPSILON →
      ShiftedPowerLaw.pmf O gamma x0 domain = Delta.pmf 0 domain ∧
      ShiftedPowerLaw.samples O gamma x0 size = Delta.samples 0 size ∧
      ∀ b, ShiftedPowerLaw.log_likelihood O gamma x0 data b =
        Delta.log_likelihood 0 data) ∧
    (gamma < EPSILON →
      TruncatedPowerLaw.pmf O gamma kappa domain = Uniform.pmf domain ∧
      TruncatedPowerLaw.samples O gamma kappa size domain =
        Uniform.samples O size DEFAULT_SAMPLE_MAX ∧
      ∀ b, TruncatedPowerLaw.log_likelihood O gamma kappa data b =
        Uniform.log_likelihood data) ∧
    (EPSILON ≤ gamma → kappa < EPSILON →
      TruncatedPowerLaw.pmf O gamma kappa domain = Delta.pmf 1 domain ∧
      TruncatedPowerLaw.samples O gamma kappa size domain = Delta.samples 1 size ∧
      ∀ b, TruncatedPowerLaw.log_likelihood O gamma kappa data b =
        Delta.log_likelihood 1 data) ∧
    (EPSILON ≤ gamma → EPSILON ≤ kappa →
      O.polylog gamma (Real.exp (-1 / kappa)) < EPSILON →
      TruncatedPowerLaw.pmf O gamma kappa domain = Delta.pmf 1 domain ∧
      TruncatedPowerLaw.samples O gamma kappa size domain = Delta.samples 1 size ∧
      ∀ b, TruncatedPowerLaw.log_likelihood O gamma kappa data b =
        Delta.log_likelihood 1 data) := by
  refine ⟨?_, ?_, ?_, ?_, ?_, ?_, ?_, ?_, ?_, ?_, ?_⟩
  · intro h
    exact ⟨by rw [Lognormal.pmf, if_pos h],
      by rw [Lognormal.samples, if_pos h],
      by rw [Lognormal.log_likelihood, if_pos (Or.inr h)]⟩
  · intro h
    rw [Lognormal.log_likelihood, if_pos (Or.inl h)]
  · intro h
    exact ⟨by rw [Poisson.pmf, if_pos h],
      by rw [Poisson.samples, if_pos h],
      fun b => by rw [Poisson.log_likelihood, if_pos h]⟩
  · intro h
    exact ⟨by rw [Exponential.pmf, if_pos h],
      by rw [Exponential.samples, if_pos h],
      fun b => by rw [Exponential.log_likelihood, if_pos h]⟩
  · intro h
    exact ⟨by rw [Weibull.pmf, if_pos h],
      by rw [Weibull.samples, if_pos h],
      by rw [Weibull.log_likelihood, if_pos h]⟩
  · intro hg hx
    exact ⟨by rw [ShiftedPowerLaw.pmf, if_pos hg, if_pos hx],
      by rw [ShiftedPowerLaw.samples, if_pos hg, if_pos hx],
      fun b => by rw [ShiftedPowerLaw.log_likelihood, if_pos hg, if_pos hx]⟩
  · intro hg hx
    exact ⟨by rw [ShiftedPowerLaw.pmf, if_pos hg, if_neg (not_lt.mpr hx)],
      by rw [ShiftedPowerLaw.samples, if_pos hg, if_neg (not_lt.mpr hx)],
      fun b => by
        rw [ShiftedPowerLaw.log_likelihood, if_pos hg, if_neg (not_lt.mpr hx)]⟩
  · intro hg hc
    exact ⟨by rw [ShiftedPowerLaw.pmf, if_neg (not_lt.mpr hg), if_pos hc],
      by rw [ShiftedPowerLaw.samples, if_neg (not_lt.mpr hg), if_pos hc],
      fun b => by
        rw [ShiftedPowerLaw.log_likelihood, if_neg (not_lt.mpr hg), if_pos hc]⟩
  · intro hg
    exact ⟨by rw [TruncatedPowerLaw.pmf, if_pos hg],
      by rw [TruncatedPowerLaw.samples, if_pos hg],
      fun b => by rw [TruncatedPowerLaw.log_likelihood, if_pos hg]⟩
  · intro hg hk
    exact ⟨by rw [TruncatedPowerLaw.pmf, if_neg (not_lt.mpr hg), if_pos hk],
      by rw [TruncatedPowerLaw.samples, if_neg (not_lt.mpr hg), if_pos hk],
      fun b => by
        rw [TruncatedPowerLaw.log_likelihood, if_neg (not_lt.mpr hg), if_pos hk]⟩
  · intro hg hk hc
    exact ⟨by
      rw [TruncatedPowerLaw.pmf, if_neg (not_lt.mpr hg),
        if_neg (not_lt.mpr hk), if_pos hc],
      by
        rw [TruncatedPowerLaw.samples, if_neg (not_lt.mpr hg),
          if_neg (not_lt.mpr hk), if_pos hc],
      fun b => by
        rw [TruncatedPowerLaw.log_likelihood, if_neg (not_lt.mpr hg),
          if_neg (not_lt.mpr hk), if_pos hc]⟩

/-- C1 witness: at sigma = 0 (below EPSILON) the Lognormal pmf substitutes
Delta(e^mu) while its log-likelihood substitutes Delta(0), and Poisson at
lambda = 0 substitutes Delta(0) in its pmf. -/
theorem C1_degenerate_substitution_witness :
    ((0 : ℝ) < EPSILON) ∧
    Lognormal.pmf 1 0 5 = Delta.pmf (Real.exp 1) 5 ∧
    Lognormal.log_likelihood 1 0 [2, 3] false = Delta.log_likelihood 0 [2, 3] ∧
    Poisson.pmf trivOracles 0 5 = Delta.pmf 0 5 := by
  have h0 : (0 : ℝ) < EPSILON := by norm_num [EPSILON]
  have h := C1_degenerate_substitution trivOracles 1 0 0 0 0 0 0 0 0 [2, 3] 3 5
  exact ⟨h0, (h.1 h0).1, (h.1 h0).2.2, (h.2.2.1 h0).1⟩

/-- Helper: the Weibull kernel is positive at positive integer points. -/
theorem weibull_kernel_pos (k lam : ℝ) (x : ℕ) (hx : 0 < x) :
    0 < Weibull.kernel k lam x :=
  mul_pos (Real.rpow_pos_of_pos (by exact_mod_cast hx) _) (Real.exp_pos _)

/-- Helper: the Weibull pmf normalizer (the kernel sum over `1..D`) is
positive for nonempty domains. -/
theorem weibull_norm_pos (k lam : ℝ) (D : ℕ) (hD : 0 < D) :
    0 < ((List.range' 1 D).map (Weibull.kernel k lam)).sum := by
  apply List.sum_pos
  · intro p hp
    simp only [List.mem_map] at hp
    obtain ⟨m, hm, rfl⟩ := hp
    have hm1 : 0 < m := by
      have := List.mem_range'_1.mp hm
      omega
    exact weibull_kernel_pos _ _ _ hm1
  · intro hnil
    have hlen : ((List.range' 1 D).map (Weibull.kernel k lam)).length = D := by
      simp
    rw [hnil] at hlen
    simp at hlen
    omega

/-- Helper: indexing the normalized Weibull kernel list at a positive
in-domain point selects the kernel value divided by the normalizer. -/
theorem weibull_pmf_getD (k lam S head : ℝ) (D : ℕ) (x : ℕ)
    (hx1 : 1 ≤ x) (hx2 : x ≤ D) :
    ((head :: (List.range' 1 D).map (Weibull.kernel k lam)).map
      (fun p => p / S)).getD x 0 = Weibull.kernel k lam x / S := by
  obtain ⟨y, rfl⟩ : ∃ y, x = y + 1 := ⟨x - 1, by omega⟩
  rw [List.map_cons, List.getD_cons_succ]
  rw [List.map_map]
  rw [List.getD_eq_getElem?_getD]
  rw [List.getElem?_map]
  rw [List.getElem?_range' (s := 1) 1 (by omega : y < D)]
  simp [Function.comp, Nat.add_comm]

/-- Helper: filtering a list of positive reals by positivity is the
identity. -/
theorem filter_pos_of_all_pos (l : List ℝ) (h : ∀ x ∈ l, 0 < x) :
    l.filter (fun x => decide (0 < x)) = l :=
  List.filter_eq_self.mpr (fun x hx => by simpa using h x hx)

/-- C3 amended: for the Weibull variant with both guards passed, shape
bounded away from the `k = 1` special branch (`k - 1` not in `[0, EPSILON)`),
and a sample of in-domain positive integer observations, the log-likelihood
equals the sum of `log(pmf[x])` over the observations exactly (the pmf taken
at the hard-coded normalization domain DEFAULT_PDF_MAX). -/
theorem C3_weibull_loglik (k lam : ℝ) (data : List ℕ)
    (hk : EPSILON ≤ k) (hl : EPSILON ≤ lam)
    (hb : ¬(0 ≤ k - 1 ∧ k - 1 < EPSILON))
    (hdata : ∀ x ∈ data, 1 ≤ x ∧ x ≤ DEFAULT_PDF_MAX) :
    Weibull.log_likelihood k lam (data.map (fun (x : ℕ) => (x : ℝ)))
      = sumLogPmf (Weibull.pmf k lam DEFAULT_PDF_MAX) data := by
  have hepos : (0 : ℝ) < EPSILON := by norm_num [EPSILON]
  have hlpos : 0 < lam := lt_of_lt_of_le hepos hl
  have hor : ¬(k < EPSILON ∨ lam < EPSILON) :=
    not_or.mpr ⟨not_lt.mpr hk, not_lt.mpr hl⟩
  have hSpos : 0 < ((List.range' 1 DEFAULT_PDF_MAX).map (Weibull.kernel k lam)).sum :=
    weibull_norm_pos k lam _ (by norm_num [DEFAULT_PDF_MAX])
  have hfilR : (data.map (fun (x : ℕ) => (x : ℝ))).filter (fun x => decide (0 < x))
      = data.map (fun (x : ℕ) => (x : ℝ)) := by
    apply filter_pos_of_all_pos
    intro x hx
    simp only [List.mem_map] at hx
    obtain ⟨m, hm, rfl⟩ := hx
    have h1 : 1 ≤ m := (hdata m hm).1
    exact_mod_cast Nat.lt_of_lt_of_le Nat.zero_lt_one h1
  have hfilN : data.filter (fun x => decide (0 < x)) = data := by
    apply List.filter_eq_self.mpr
    intro x hx
    have h1 : 1 ≤ x := (hdata x hx).1
    simpa using h1
  have hLHS : Weibull.log_likelihood k lam (data.map (fun (x : ℕ) => (x : ℝ)))
      = (k - 1) * ((data.map (fun (x : ℕ) => Real.log (x : ℝ))).sum)
        - 1 / lam ^ k * ((data.map (fun (x : ℕ) => (x : ℝ) ^ k)).sum)
        - (data.length : ℝ) *
            Real.log (((List.range' 1 DEFAULT_PDF_MAX).map (Weibull.kernel k lam)).sum) := by
    simp only [Weibull.log_likelihood]
    rw [if_neg hor, hfilR]
    rw [List.map_map, List.map_map, List.length_map]
    rfl
  have hpmf_eq : Weibull.pmf k lam DEFAULT_PDF_MAX
      = ((0 : ℝ) :: (List.range' 1 DEFAULT_PDF_MAX).map (Weibull.kernel k lam)).map
          (fun p => p /
            ((List.range' 1 DEFAULT_PDF_MAX).map (Weibull.kernel k lam)).sum) := by
    simp only [Weibull.pmf]
    rw [if_neg hor, if_neg hb]
    rw [List.sum_cons, zero_add]
  have hRHS : sumLogPmf (Weibull.pmf k lam DEFAULT_PDF_MAX) data
      = (data.map (fun x => Real.log (Weibull.kernel k lam x /
          ((List.range' 1 DEFAULT_PDF_MAX).map (Weibull.kernel k lam)).sum))).sum := by
    unfold sumLogPmf
    rw [hfilN]
    congr 1
    apply List.map_congr_left
    intro x hx
    rw [hpmf_eq]
    rw [weibull_pmf_getD k lam _ 0 DEFAULT_PDF_MAX x (hdata x hx).1 (hdata x hx).2]
  rw [hLHS, hRHS]
  have hlog : ∀ x ∈ data,
      Real.log (Weibull.kernel k lam x /
          ((List.range' 1 DEFAULT_PDF_MAX).map (Weibull.kernel k lam)).sum)
        = (k - 1) * Real.log (x : ℝ)
          + ((-(1 / lam ^ k)) * (x : ℝ) ^ k
            + (-(Real.log (((List.range' 1 DEFAULT_PDF_MAX).map
                (Weibull.kernel k lam)).sum)))) := by
    intro x hx
    have hx1 : (0 : ℝ) < (x : ℝ) := by
      have h1 : 1 ≤ x := (hdata x hx).1
      exact_mod_cast Nat.lt_of_lt_of_le Nat.zero_lt_one h1
    have hker_pos : 0 < Weibull.kernel k lam x :=
      weibull_kernel_pos k lam x (by exact_mod_cast hx1)
    rw [Real.log_div (ne_of_gt hker_pos) (ne_of_gt hSpos)]
    unfold Weibull.kernel
    rw [Real.log_mul (ne_of_gt (Real.rpow_pos_of_pos hx1 _))
      (ne_of_gt (Real.exp_pos _))]
    rw [Real.log_rpow hx1, Real.log_exp]
    rw [Real.div_rpow hx1.le hlpos.le]
    have hlk : (0 : ℝ) < lam ^ k := Real.rpow_pos_of_pos hlpos k
    field_simp
    ring
  rw [List.map_congr_left hlog]
  rw [ModelPy.sum_map_add_real data (fun (x : ℕ) => (k - 1) * Real.log (x : ℝ)) _]
  rw [ModelPy.sum_map_add_real data (fun (x : ℕ) => (-(1 / lam ^ k)) * (x : ℝ) ^ k) _]
  rw [ModelPy.sum_map_smul_real data (k - 1) (fun (x : ℕ) => Real.log (x : ℝ))]
  rw [ModelPy.sum_map_smul_real data (-(1 / lam ^ k)) (fun (x : ℕ) => (x : ℝ) ^ k)]
  rw [ModelPy.sum_map_const_real data]
  ring

/-- C3 witness: at shape 3, scale 1 and data [1, 2] the Weibull
log-likelihood equals the sum of log pmf entries over the observations. -/
theorem C3_weibull_loglik_witness :
    (EPSILON ≤ (3 : ℝ)) ∧
    Weibull.log_likelihood 3 1 ([1, 2].map (fun (x : ℕ) => (x : ℝ)))
      = sumLogPmf (Weibull.pmf 3 1 DEFAULT_PDF_MAX) [1, 2] := by
  refine ⟨by norm_num [EPSILON], ?_⟩
  exact C3_weibull_loglik 3 1 [1, 2] (by norm_num [EPSILON]) (by norm_num [EPSILON])
    (by norm_num [EPSILON]) (by norm_num [DEFAULT_PDF_MAX])

/-- C3 counterexample: the claimed agreement fails both on the `k = 1`
special branch (the pmf's normalizer gains the extra `1/lam` head entry that
the log-likelihood's normalizer lacks: at k = lam = 1 on data [1]) and on
samples containing zero observations (the log-likelihood multiplies the
normalizer term by `len(data)` while the pmf sum ranges over the nonzero
observations only: at k = 2, lam = 10000 on data [0]). -/
theorem C3_counterexample :
    (Weibull.log_likelihood 1 1 [1]
      ≠ sumLogPmf (Weibull.pmf 1 1 DEFAULT_PDF_MAX) [1]) ∧
    (Weibull.log_likelihood 2 10000 [0]
      ≠ sumLogPmf (Weibull.pmf 2 10000 DEFAULT_PDF_MAX) [0]) := by
  constructor
  · have hor : ¬((1 : ℝ) < EPSILON ∨ (1 : ℝ) < EPSILON) := by
      norm_num [EPSILON]
    have hc1pos : 0 < ((List.range' 1 DEFAULT_PDF_MAX).map (Weibull.kernel 1 1)).sum :=
      weibull_norm_pos 1 1 _ (by norm_num [DEFAULT_PDF_MAX])
    have hfil1 : ([1] : List ℝ).filter (fun x => decide (0 < x)) = [1] := by
      simp only [List.filter_cons, List.filter_nil, decide_eq_true_eq]
      rw [if_pos (by norm_num)]
    have hLHS : Weibull.log_likelihood 1 1 [1]
        = -1 - Real.log (((List.range' 1 DEFAULT_PDF_MAX).map (Weibull.kernel 1 1)).sum) := by
      simp only [Weibull.log_likelihood]
      rw [if_neg hor, hfil1]
      simp only [List.map_cons, List.map_nil, List.sum_cons, List.sum_nil,
        List.length_cons, List.length_nil]
      push_cast
      ring
    have hpmf_eq : Weibull.pmf 1 1 DEFAULT_PDF_MAX
        = ((1 / 1 : ℝ) :: (List.range' 1 DEFAULT_PDF_MAX).map (Weibull.kernel 1 1)).map
            (fun p => p / ((1 / 1 : ℝ)
              + ((List.range' 1 DEFAULT_PDF_MAX).map (Weibull.kernel 1 1)).sum)) := by
      simp only [Weibull.pmf]
      rw [if_neg hor, if_pos (by norm_num [EPSILON] : (0 : ℝ) ≤ 1 - 1 ∧ 1 - 1 < EPSILON)]
      rw [List.sum_cons]
    have hker11 : Weibull.kernel 1 1 1 = Real.exp (-1) := by
      unfold Weibull.kernel
      rw [Nat.cast_one, Real.one_rpow]
      norm_num [Real.one_rpow]
    have hRHS : sumLogPmf (Weibull.pmf 1 1 DEFAULT_PDF_MAX) [1]
        = -1 - Real.log ((1 / 1 : ℝ)
            + ((List.range' 1 DEFAULT_PDF_MAX).map (Weibull.kernel 1 1)).sum) := by
      unfold sumLogPmf
      rw [show ([1] : List ℕ).filter (fun x => decide (0 < x)) = [1] from rfl]
      simp only [List.map_cons, List.map_nil, List.sum_cons, List.sum_nil]
      rw [hpmf_eq, weibull_pmf_getD 1 1 _ _ DEFAULT_PDF_MAX 1 le_rfl
        (by norm_num [DEFAULT_PDF_MAX]), hker11]
      rw [Real.log_div (ne_of_gt (Real.exp_pos _)) (by positivity)]
      rw [Real.log_exp]
      ring
    rw [hLHS, hRHS]
    intro h
    have hlt : Real.log (((List.range' 1 DEFAULT_PDF_MAX).map (Weibull.kernel 1 1)).sum)
        < Real.log ((1 / 1 : ℝ)
            + ((List.range' 1 DEFAULT_PDF_MAX).map (Weibull.kernel 1 1)).sum) :=
      Real.log_lt_log hc1pos (by norm_num)
    linarith
  · have hor : ¬((2 : ℝ) < EPSILON ∨ (10000 : ℝ) < EPSILON) := by
      norm_num [EPSILON]
    have hfil0 : ([0] : List ℝ).filter (fun x => decide (0 < x)) = [] := by
      simp only [List.filter_cons, List.filter_nil, decide_eq_true_eq]
      rw [if_neg (by norm_num)]
    have hLHS : Weibull.log_likelihood 2 10000 [0]
        = -Real.log (((List.range' 1 DEFAULT_PDF_MAX).map (Weibull.kernel 2 10000)).sum) := by
      simp only [Weibull.log_likelihood]
      rw [if_neg hor, hfil0]
      simp only [List.map_cons, List.map_nil, List.sum_cons, List.sum_nil,
        List.length_cons, List.length_nil]
      rw [Real.zero_rpow (by norm_num : (2 : ℝ) ≠ 0)]
      push_cast
      ring
    have hRHS : sumLogPmf (Weibull.pmf 2 10000 DEFAULT_PDF_MAX) [0] = 0 := by
      unfold sumLogPmf
      rw [show ([0] : List ℕ).filter (fun x => decide (0 < x)) = [] from rfl]
      simp
    rw [hLHS, hRHS]
    have hexp3 : Real.exp 1 < 3 := by
      have := Real.exp_one_lt_d9
      linarith
    have hexpinv : (1 : ℝ) / 3 < Real.exp (-1) := by
      rw [Real.exp_neg]
      rw [div_lt_iff₀ (by norm_num : (0 : ℝ) < 3)]
      rw [inv_mul_eq_div, lt_div_iff₀ (Real.exp_pos 1)]
      linarith
    have hk1 : Real.exp (-1) ≤ Weibull.kernel 2 10000 1 := by
      unfold Weibull.kernel
      rw [Nat.cast_one, Real.one_rpow, one_mul]
      apply Real.exp_le_exp.mpr
      have hle1 : ((1 : ℝ) / 10000) ^ (2 : ℝ) ≤ 1 :=
        Real.rpow_le_one (by norm_num) (by norm_num) (by norm_num)
      linarith
    have hk2 : 2 * Real.exp (-1) ≤ Weibull.kernel 2 10000 2 := by
      unfold Weibull.kernel
      have h21 : ((2 : ℕ) : ℝ) ^ ((2 : ℝ) - 1) = 2 := by
        norm_num [Real.rpow_one]
      rw [h21]
      have hle1 : (((2 : ℕ) : ℝ) / 10000) ^ (2 : ℝ) ≤ 1 :=
        Real.rpow_le_one (by norm_num) (by norm_num) (by norm_num)
      have hmono : Real.exp (-1) ≤ Real.exp (-(((2 : ℕ) : ℝ) / 10000) ^ (2 : ℝ)) := by
        apply Real.exp_le_exp.mpr
        linarith
      nlinarith [Real.exp_pos (-1 : ℝ)]
    have hrest : 0 ≤ ((List.range' 3 9998).map (Weibull.kernel 2 10000)).sum := by
      apply List.sum_nonneg
      intro p hp
      simp only [List.mem_map] at hp
      obtain ⟨m, hm, rfl⟩ := hp
      have hm3 : 0 < m := by
        have := List.mem_range'_1.mp hm
        omega
      exact (weibull_kernel_pos 2 10000 m hm3).le
    have hsplit : ((List.range' 1 DEFAULT_PDF_MAX).map (Weibull.kernel 2 10000)).sum
        = Weibull.kernel 2 10000 1 + (Weibull.kernel 2 10000 2
          + ((List.range' 3 9998).map (Weibull.kernel 2 10000)).sum) := by
      rw [show List.range' 1 DEFAULT_PDF_MAX = 1 :: 2 :: List.range' 3 9998 from by
        rw [show DEFAULT_PDF_MAX = 9999 + 1 from rfl, List.range'_succ]
        rw [show (9999 : ℕ) = 9998 + 1 from rfl, List.range'_succ]]
      simp [List.map_cons, List.sum_cons]
    have hgt1 : 1 < ((List.range' 1 DEFAULT_PDF_MAX).map (Weibull.kernel 2 10000)).sum := by
      rw [hsplit]
      nlinarith [hk1, hk2, hrest, hexpinv]
    have hlogpos : 0 < Real.log (((List.range' 1 DEFAULT_PDF_MAX).map
        (Weibull.kernel 2 10000)).sum) := Real.log_pos hgt1
    intro h
    linarith
